import Mathlib

/-!
Verification of the `UsersSave` user-record store (`src/main.py`).

The development shallowly embeds the Python source: pure helpers become Lean
functions, the mutable object state (`self.users` plus the JSON file on disk)
becomes an explicit `UsersSave` state record threaded through the operations,
and the interactive `input()` calls become explicit string parameters.
-/

namespace UserOps

/-! ## Python primitives used by the source -/

/-- The set of characters Python's `str.strip()` (no argument) removes:
exactly the code points for which `Py_UNICODE_ISSPACE` holds
(0x09–0x0D, 0x1C–0x1F, 0x20, 0x85, 0xA0, 0x1680, 0x2000–0x200A,
0x2028, 0x2029, 0x202F, 0x205F, 0x3000). -/
def pyIsSpace (c : Char) : Bool :=
  let n := c.toNat
  (9 ≤ n && n ≤ 13) || (28 ≤ n && n ≤ 32) || n = 133 || n = 160 || n = 5760 ||
    (8192 ≤ n && n ≤ 8202) || n = 8232 || n = 8233 || n = 8239 || n = 8287 || n = 12288

/-- Python `str.strip()`: drop `pyIsSpace` characters from both ends. -/
def pyStrip (s : String) : String :=
  ⟨((s.data.dropWhile pyIsSpace).reverse.dropWhile pyIsSpace).reverse⟩

/-- Python's `\d` character class restricted to ASCII.  (Python's `re` also
matches non-ASCII Unicode decimal digits; this development uses the same
digit predicate on the code side and on the spec side throughout, so no
claim verdict depends on the restriction.) -/
def pyDigit (c : Char) : Bool := c.isDigit

/-- The `[A-Z]` character class of Python `re` (ASCII range). -/
def upperCls (c : Char) : Bool := decide ('A' ≤ c) && decide (c ≤ 'Z')

/-- The `[a-z]` character class of Python `re` (ASCII range). -/
def lowerCls (c : Char) : Bool := decide ('a' ≤ c) && decide (c ≤ 'z')

/-! ### A small regex engine covering the patterns the source uses

`src/main.py` uses `re.match(r"^(05\d{9})$", ...)` and
`re.search` with the single-class patterns `[A-Z]`, `[a-z]`, `\d`.
The engine below implements exactly the constructs appearing there:
literal characters, character classes, sequencing, bounded repetition
(via unfolding), and the `$` anchor with Python semantics: without
`re.MULTILINE`, `$` matches at the end of the string **or just before a
newline that is the last character**.  The `^` anchor and the
capturing group in the phone pattern have no effect under `re.match`
and are omitted from the AST. -/

inductive Re where
  | epsilon : Re
  | lit (c : Char) : Re
  | cls (p : Char → Bool) : Re
  | seq (r1 r2 : Re) : Re
  | dollar : Re

/-- Continuation-passing matcher: `reMatches r s k` holds when `r` matches a
prefix of `s` and the continuation `k` accepts the remaining suffix. -/
def reMatches : Re → List Char → (List Char → Bool) → Bool
  | .epsilon, s, k => k s
  | .lit c, s, k =>
    match s with
    | [] => false
    | c2 :: rest => c2 = c && k rest
  | .cls p, s, k =>
    match s with
    | [] => false
    | c :: rest => p c && k rest
  | .seq r1 r2, s, k => reMatches r1 s (fun s2 => reMatches r2 s2 k)
  | .dollar, s, k => (decide (s = []) || decide (s = ['\n'])) && k s

/-- Sequence a list of regexes. -/
def reSeq (l : List Re) : Re := l.foldr .seq .epsilon

/-- `r{n}`: `n`-fold repetition, by unfolding. -/
def reRep (n : Nat) (r : Re) : Re := reSeq (List.replicate n r)

/-- Python `re.match(pattern, s)` viewed as a boolean: does the pattern match
at the start of `s` (any remainder allowed)? -/
def re_match (r : Re) (s : String) : Bool :=
  reMatches r s.data (fun _ => true)

/-- Python `re.search(pattern, s)` viewed as a boolean: does the pattern match
starting at some position of `s`? -/
def re_search (r : Re) (s : String) : Bool :=
  (List.range (s.data.length + 1)).any fun i => reMatches r (s.data.drop i) (fun _ => true)

/-- AST of the phone pattern `^(05\d{9})$` (anchor `^` and the group are
no-ops under `re.match` and are dropped). -/
def phoneRe : Re := reSeq [.lit '0', .lit '5', reRep 9 (.cls pyDigit), .dollar]

/-! ## Validation helpers of `UsersSave` -/

/-- `UsersSave._validate_phone_number` (src/main.py lines 49–53):
`bool(re.match(r"^(05\d{9})$", number))`. -/
def _validate_phone_number (number : String) : Bool :=
  re_match phoneRe number

/-- `UsersSave._validate_password` (src/main.py lines 55–66): length at least
8, and `re.search` finds an uppercase letter, a lowercase letter and a digit. -/
def _validate_password (password : String) : Bool :=
  if password.length < 8 then false
  else if !re_search (.cls upperCls) password then false
  else if !re_search (.cls lowerCls) password then false
  else if !re_search (.cls pyDigit) password then false
  else true

/-! ## SHA-256 (`hashlib.sha256(password.encode()).hexdigest()`)

`UsersSave._hash_password` hashes the UTF-8 encoding of the password with
SHA-256 and renders the digest as lowercase hexadecimal.  The full algorithm
(FIPS 180-4) is implemented below over `Nat`, with 32-bit arithmetic made
explicit via `% 2^32`. -/

/-- UTF-8 encoding of one character, as bytes (each `< 256`).
Models Python `str.encode()` (default UTF-8). -/
def utf8EncodeChar (c : Char) : List Nat :=
  let n := c.toNat
  if n < 128 then [n]
  else if n < 2048 then [192 + n / 64, 128 + n % 64]
  else if n < 65536 then [224 + n / 4096, 128 + (n / 64) % 64, 128 + n % 64]
  else [240 + n / 262144, 128 + (n / 4096) % 64, 128 + (n / 64) % 64, 128 + n % 64]

/-- UTF-8 byte sequence of a string. -/
def strBytes (s : String) : List Nat := s.data.flatMap utf8EncodeChar

/-- 32-bit truncation. -/
def w32 (x : Nat) : Nat := x % 4294967296

/-- Bitwise right rotation of a 32-bit word. -/
def rotr (n x : Nat) : Nat := w32 ((x >>> n) ||| (x <<< (32 - n)))

/-- SHA-256 round constants. -/
def shaK : List Nat :=
  [1116352408, 1899447441, 3049323471, 3921009573, 961987163,
   1508970993, 2453635748, 2870763221, 3624381080, 310598401,
   607225278, 1426881987, 1925078388, 2162078206, 2614888103,
   3248222580, 3835390401, 4022224774, 264347078, 604807628,
   770255983, 1249150122, 1555081692, 1996064986, 2554220882,
   2821834349, 2952996808, 3210313671, 3336571891, 3584528711,
   113926993, 338241895, 666307205, 773529912, 1294757372,
   1396182291, 1695183700, 1986661051, 2177026350, 2456956037,
   2730485921, 2820302411, 3259730800, 3345764771, 3516065817,
   3600352804, 4094571909, 275423344, 430227734, 506948616,
   659060556, 883997877, 958139571, 1322822218, 1537002063,
   1747873779, 1955562222, 2024104815, 2227730452, 2361852424,
   2428436474, 2756734187, 3204031479, 3329325298]

/-- SHA-256 padding: append `0x80`, zero bytes, and the 64-bit big-endian
bit length, so that the total length is a multiple of 64 bytes. -/
def shaPad (msg : List Nat) : List Nat :=
  let len := msg.length
  let zeros := (64 - (len + 9) % 64) % 64
  let bitLen := 8 * len
  msg ++ [0x80] ++ List.replicate zeros 0 ++
    [bitLen / 2^56 % 256, bitLen / 2^48 % 256, bitLen / 2^40 % 256, bitLen / 2^32 % 256,
     bitLen / 2^24 % 256, bitLen / 2^16 % 256, bitLen / 2^8 % 256, bitLen % 256]

/-- Split a list into chunks of `n` elements (`n > 0`; fueled by list length). -/
def chunksAux (n : Nat) : Nat → List Nat → List (List Nat)
  | 0, _ => []
  | _, [] => []
  | fuel + 1, l => l.take n :: chunksAux n fuel (l.drop n)

def chunks (n : Nat) (l : List Nat) : List (List Nat) := chunksAux n l.length l

/-- Big-endian 32-bit words of a byte chunk. -/
def wordsOfBytes (l : List Nat) : List Nat :=
  (chunks 4 l).map fun b => b.foldl (fun acc x => acc * 256 + x) 0

/-- Message schedule: extend 16 words to 64. -/
def shaSchedule : Nat → List Nat → List Nat
  | 0, ws => ws
  | fuel + 1, ws =>
    let n := ws.length
    let w15 := ws.getD (n - 15) 0
    let w2 := ws.getD (n - 2) 0
    let s0 := w32 (Nat.xor (Nat.xor (rotr 7 w15) (rotr 18 w15)) (w15 >>> 3))
    let s1 := w32 (Nat.xor (Nat.xor (rotr 17 w2) (rotr 19 w2)) (w2 >>> 10))
    shaSchedule fuel (ws ++ [w32 (ws.getD (n - 16) 0 + s0 + ws.getD (n - 7) 0 + s1)])

/-- Eight-word SHA-256 working state. -/
structure Sha8 where
  a : Nat
  b : Nat
  c : Nat
  d : Nat
  e : Nat
  f : Nat
  g : Nat
  h : Nat

/-- One compression round. -/
def shaRound (st : Sha8) (kw : Nat × Nat) : Sha8 :=
  let S1 := w32 (Nat.xor (Nat.xor (rotr 6 st.e) (rotr 11 st.e)) (rotr 25 st.e))
  let ch := w32 (Nat.xor (Nat.land st.e st.f) (Nat.land (2^32 - 1 - st.e) st.g))
  let t1 := w32 (st.h + S1 + ch + kw.1 + kw.2)
  let S0 := w32 (Nat.xor (Nat.xor (rotr 2 st.a) (rotr 13 st.a)) (rotr 22 st.a))
  let maj := w32 (Nat.xor (Nat.xor (Nat.land st.a st.b) (Nat.land st.a st.c)) (Nat.land st.b st.c))
  let t2 := w32 (S0 + maj)
  ⟨w32 (t1 + t2), st.a, st.b, st.c, w32 (st.d + t1), st.e, st.f, st.g⟩

/-- Process one 64-byte chunk. -/
def shaChunk (st : Sha8) (chunk : List Nat) : Sha8 :=
  let ws := shaSchedule 48 (wordsOfBytes chunk)
  let r := (shaK.zip ws).foldl shaRound st
  ⟨w32 (st.a + r.a), w32 (st.b + r.b), w32 (st.c + r.c), w32 (st.d + r.d),
   w32 (st.e + r.e), w32 (st.f + r.f), w32 (st.g + r.g), w32 (st.h + r.h)⟩

/-- SHA-256 of a byte sequence: the eight 32-bit hash words. -/
def sha256Words (msg : List Nat) : List Nat :=
  let init : Sha8 :=
    ⟨1779033703, 3144134277, 1013904242, 2773480762,
     1359893119, 2600822924, 528734635, 1541459225⟩
  let st := (chunks 64 (shaPad msg)).foldl shaChunk init
  [st.a, st.b, st.c, st.d, st.e, st.f, st.g, st.h]

/-- Lowercase hexadecimal digit for `n < 16`. -/
def hexDigit (n : Nat) : Char :=
  if n < 10 then Char.ofNat (n + 48) else Char.ofNat (n + 87)

/-- Lowercase hexadecimal rendering of one 32-bit word (8 digits). -/
def wordHex (x : Nat) : List Char :=
  [hexDigit (x / 16^7 % 16), hexDigit (x / 16^6 % 16), hexDigit (x / 16^5 % 16),
   hexDigit (x / 16^4 % 16), hexDigit (x / 16^3 % 16), hexDigit (x / 16^2 % 16),
   hexDigit (x / 16 % 16), hexDigit (x % 16)]

/-- `UsersSave._hash_password` (src/main.py lines 68–71):
`hashlib.sha256(password.encode()).hexdigest()`. -/
def _hash_password (password : String) : String :=
  ⟨(sha256Words (strBytes password)).flatMap wordHex⟩

/-! ## User records and the JSON storage format

In memory a user is the dict
`{"name": ..., "number": ..., "password": ..., "created_at": ...}`
built at src/main.py lines 88–93; all four values are strings. -/

structure UserRecord where
  name : String
  number : String
  password : String
  created_at : String
deriving DecidableEq, Repr

/-- JSON values, as produced by Python's `json.load`.  Numbers are modelled
as integers only (the claims under verification involve no floating-point
literals; `json` would parse `1.5` as a float). -/
inductive Json where
  | null : Json
  | bool (b : Bool) : Json
  | num (n : Int) : Json
  | str (s : String) : Json
  | arr (items : List Json) : Json
  | obj (members : List (String × Json)) : Json
deriving Repr

/-- String escaping of `json.dump` with `ensure_ascii=False`: escape the
backslash, the double quote and control characters (short escapes for
`\b \t \n \f \r`, `\u00xx` otherwise); all other characters are kept
literally. -/
def jsonEscapeChar (c : Char) : List Char :=
  if c = '\\' then ['\\', '\\']
  else if c = '"' then ['\\', '"']
  else if c = '\x08' then ['\\', 'b']
  else if c = '\x09' then ['\\', 't']
  else if c = '\x0a' then ['\\', 'n']
  else if c = '\x0c' then ['\\', 'f']
  else if c = '\x0d' then ['\\', 'r']
  else if c.toNat < 32 then ['\\', 'u', '0', '0', hexDigit (c.toNat / 16 % 16), hexDigit (c.toNat % 16)]
  else [c]

/-- A JSON string literal (quotes plus escaped body). -/
def jsonQuote (s : String) : List Char :=
  '"' :: (s.data.flatMap jsonEscapeChar ++ ['"'])

/-! The fixed text chunks of the `indent=4` rendering, as explicit
character lists (an opening brace, a newline, eight spaces of level-2
indent, the quoted key, a colon and a space; then comma separators of the
same shape; four spaces of level-1 indent around braces and brackets). -/

def chunkName : List Char :=
  ['\x7b', '\n', ' ', ' ', ' ', ' ', ' ', ' ', ' ', ' ', '"', 'n', 'a', 'm', 'e', '"', ':', ' ']

def chunkNumber : List Char :=
  [',', '\n', ' ', ' ', ' ', ' ', ' ', ' ', ' ', ' ', '"', 'n', 'u', 'm', 'b', 'e', 'r', '"', ':', ' ']

def chunkPassword : List Char :=
  [',', '\n', ' ', ' ', ' ', ' ', ' ', ' ', ' ', ' ', '"', 'p', 'a', 's', 's', 'w', 'o', 'r', 'd', '"', ':', ' ']

def chunkCreated : List Char :=
  [',', '\n', ' ', ' ', ' ', ' ', ' ', ' ', ' ', ' ',
   '"', 'c', 'r', 'e', 'a', 't', 'e', 'd', '_', 'a', 't', '"', ':', ' ']

def chunkObjClose : List Char := ['\n', ' ', ' ', ' ', ' ', '\x7d']

def chunkArrOpen : List Char := ['[', '\n', ' ', ' ', ' ', ' ']

def chunkArrSep : List Char := [',', '\n', ' ', ' ', ' ', ' ']

def chunkArrClose : List Char := ['\n', ']']

/-- The serialization of one user dict exactly as `json.dump` with
`indent=4` renders it inside the top-level array (nesting level 1). -/
def dumpRecord (r : UserRecord) : List Char :=
  chunkName ++ (jsonQuote r.name ++ (chunkNumber ++ (jsonQuote r.number ++
    (chunkPassword ++ (jsonQuote r.password ++
      (chunkCreated ++ (jsonQuote r.created_at ++ chunkObjClose)))))))

/-- `json.dump(self.users, outfile, ensure_ascii=False, indent=4)`
(src/main.py line 30): the exact file text written by `_save_users`. -/
def dumpUsers (us : List UserRecord) : String :=
  match us with
  | [] => "[]"
  | r :: rest =>
    ⟨chunkArrOpen ++ (dumpRecord r ++
      (rest.flatMap (fun r2 => chunkArrSep ++ dumpRecord r2) ++ chunkArrClose))⟩

/-- The `Json` object corresponding to one user record. -/
def recordJson (r : UserRecord) : Json :=
  .obj [("name", .str r.name), ("number", .str r.number),
        ("password", .str r.password), ("created_at", .str r.created_at)]

/-- The `Json` value corresponding to a collection of user records: an array
of objects with the four keys in insertion order. -/
def jsonOfUsers (us : List UserRecord) : Json :=
  .arr (us.map recordJson)

/-- Field-for-field decoding of a user object (inverse of `jsonOfUsers` on
its image; used to state the round-trip claim). -/
def userOfJson : Json → Option UserRecord
  | .obj [("name", .str n), ("number", .str p), ("password", .str w), ("created_at", .str c)] =>
    some ⟨n, p, w, c⟩
  | _ => none

def usersOfJson : Json → Option (List UserRecord)
  | .arr items => items.mapM userOfJson
  | _ => none

/-! ### A parser for `json.load`

Python's `json.load(fp)` parses `fp.read()` and raises `JSONDecodeError` on
malformed input (modelled as `none`).  The parser below implements JSON with
Python's strict-mode behavior: whitespace is ` \t\n\r`, control characters
are rejected inside string literals, the standard escapes and `\uXXXX` are
decoded.  Restrictions (irrelevant to every claim below): numbers are parsed
as integers (no fraction/exponent forms, and leading zeros are not
rejected), `NaN`/`Infinity` literals and UTF-16 surrogate pairing in
`\uXXXX` escapes are not modelled. -/

/-- JSON whitespace (`json.decoder`'s `WHITESPACE`). -/
def jsonWs (c : Char) : Bool := c = ' ' || c = '\t' || c = '\n' || c = '\r'

def skipWs (l : List Char) : List Char := l.dropWhile jsonWs

/-- Value of one hexadecimal digit (either case), if any. -/
def hexVal? (c : Char) : Option Nat :=
  if '0' ≤ c ∧ c ≤ '9' then some (c.toNat - 48)
  else if 'a' ≤ c ∧ c ≤ 'f' then some (c.toNat - 87)
  else if 'A' ≤ c ∧ c ≤ 'F' then some (c.toNat - 55)
  else none

/-- Decoding of a single-character escape (`json.decoder`'s `BACKSLASH`
table; `\u` is handled separately). -/
def escChar? (e : Char) : Option Char :=
  if e = '"' then some '"'
  else if e = '\\' then some '\\'
  else if e = '/' then some '/'
  else if e = 'b' then some '\x08'
  else if e = 'f' then some '\x0c'
  else if e = 'n' then some '\x0a'
  else if e = 'r' then some '\x0d'
  else if e = 't' then some '\x09'
  else none

/-- Parse the body of a string literal (after the opening quote), returning
the decoded characters and the input after the closing quote. -/
def parseStringBody : List Char → Option (List Char × List Char)
  | [] => none
  | c :: rest =>
    if c = '"' then some ([], rest)
    else if c = '\\' then
      match rest with
      | [] => none
      | e :: rest2 =>
        if e = 'u' then
          match rest2 with
          | h1 :: h2 :: h3 :: h4 :: rest3 =>
            (hexVal? h1).bind fun v1 =>
              (hexVal? h2).bind fun v2 =>
                (hexVal? h3).bind fun v3 =>
                  (hexVal? h4).bind fun v4 =>
                    (parseStringBody rest3).map fun p =>
                      (Char.ofNat (((v1 * 16 + v2) * 16 + v3) * 16 + v4) :: p.1, p.2)
          | _ => none
        else
          (escChar? e).bind fun c2 =>
            (parseStringBody rest2).map fun p => (c2 :: p.1, p.2)
    else if c.toNat < 32 then none
    else (parseStringBody rest).map fun p => (c :: p.1, p.2)

/-- Numeric value of a digit list. -/
def digitsVal (l : List Char) : Nat := l.foldl (fun a c => a * 10 + (c.toNat - 48)) 0

/-- Parse an integer literal. -/
def parseNumber (l : List Char) : Option (Json × List Char) :=
  match l with
  | '-' :: rest =>
    let ds := rest.takeWhile Char.isDigit
    if ds = [] then none
    else some (.num (-(digitsVal ds : Int)), rest.dropWhile Char.isDigit)
  | _ =>
    let ds := l.takeWhile Char.isDigit
    if ds = [] then none
    else some (.num (digitsVal ds : Int), l.dropWhile Char.isDigit)

mutual

/-- Parse one JSON value.  The fuel only bounds the recursion; the
top-level wrapper supplies more fuel than any input can consume. -/
def parseVal : Nat → List Char → Option (Json × List Char)
  | 0, _ => none
  | fuel + 1, l =>
    match l with
    | 'n' :: 'u' :: 'l' :: 'l' :: rest => some (.null, rest)
    | 't' :: 'r' :: 'u' :: 'e' :: rest => some (.bool true, rest)
    | 'f' :: 'a' :: 'l' :: 's' :: 'e' :: rest => some (.bool false, rest)
    | '"' :: rest => (parseStringBody rest).map fun p => (.str ⟨p.1⟩, p.2)
    | '[' :: rest =>
      match skipWs rest with
      | ']' :: rest2 => some (.arr [], rest2)
      | l2 => (parseItems fuel l2).map fun p => (.arr p.1, p.2)
    | '\x7b' :: rest =>
      match skipWs rest with
      | '\x7d' :: rest2 => some (.obj [], rest2)
      | l2 => (parseMembers fuel l2).map fun p => (.obj p.1, p.2)
    | _ => parseNumber l

/-- Parse the items of a non-empty array, positioned at the first item. -/
def parseItems : Nat → List Char → Option (List Json × List Char)
  | 0, _ => none
  | fuel + 1, l =>
    (parseVal fuel l).bind fun pv =>
      match skipWs pv.2 with
      | ',' :: r2 =>
        (parseItems fuel (skipWs r2)).bind fun pr => some (pv.1 :: pr.1, pr.2)
      | ']' :: r2 => some ([pv.1], r2)
      | _ => none

/-- Parse the members of a non-empty object, positioned at the first key. -/
def parseMembers : Nat → List Char → Option (List (String × Json) × List Char)
  | 0, _ => none
  | fuel + 1, l =>
    match l with
    | '"' :: rest =>
      (parseStringBody rest).bind fun pk =>
        match skipWs pk.2 with
        | ':' :: r2 =>
          (parseVal fuel (skipWs r2)).bind fun pv =>
            match skipWs pv.2 with
            | ',' :: r4 =>
              (parseMembers fuel (skipWs r4)).bind fun pm =>
                some ((⟨pk.1⟩, pv.1) :: pm.1, pm.2)
            | '\x7d' :: r4 => some ([(⟨pk.1⟩, pv.1)], r4)
            | _ => none
        | _ => none
    | _ => none

end

/-- Python `json.loads` (hence `json.load` on the file content): skip
leading whitespace, parse one value, require only whitespace to follow. -/
def pyJsonLoads (s : String) : Option Json :=
  match parseVal (s.data.length + 1) (skipWs s.data) with
  | some (v, rest) => if skipWs rest = [] then some v else none
  | none => none

/-! ## The `UsersSave` state and operations

The mutable object state is `self.users` together with the JSON file at
`self.file_path`.  It is embedded as an explicit record: `users` is the
in-memory collection (in its well-formed shape, a list of user dicts with
the four string fields — the shape every record created through
`add_user`/`update_user` has), and `fileContent` is the current byte
content of the storage file (`none` = the file does not exist).

Each operation returns the new state and an outcome.  The `input()` calls
of the source become parameters; `datetime.now().isoformat()` becomes the
parameter `now`.  `print`/`logging` calls have no effect on the state and
are not modelled; `UserValidationError` raised and caught inside an
operation becomes the `validationError` outcome, and the
`"Kullanıcı bulunamadı!"` / `"Geçersiz seçim!"` branches become
`notFound` / `invalidSelection` (the spec's `NotFoundError` and
`InvalidSelectionError`). -/

structure UsersSave where
  users : List UserRecord
  fileContent : Option String
deriving DecidableEq, Repr

inductive OpResult where
  | ok : OpResult
  | validationError (msg : String) : OpResult
  | notFound : OpResult
  | invalidSelection : OpResult
deriving DecidableEq, Repr

/-- `UsersSave._save_users` (src/main.py lines 26–34): serialize the whole
collection over the previous file content.  (The I/O failure path re-raises
after logging and is outside every claim; the success path is modelled.) -/
def _save_users (st : UsersSave) : UsersSave :=
  { st with fileContent := some (dumpUsers st.users) }

/-- `UsersSave._load_users` (src/main.py lines 36–47): the collection the
constructor ends up with, as a raw `Json` value — the parsed file content
verbatim, `[]` when the file is missing (`FileNotFoundError`) or fails to
parse (`json.JSONDecodeError`). -/
def _load_users (file : Option String) : Json :=
  match file with
  | none => .arr []
  | some content =>
    match pyJsonLoads content with
    | some j => j
    | none => .arr []

/-- `UsersSave.add_user` (src/main.py lines 73–105).  Parameters are the
three `input()` results (the name and phone inputs are `.strip()`ped by the
source, the password is not) and the current timestamp. -/
def add_user (st : UsersSave) (nameInput numberInput passwordInput now : String) :
    UsersSave × OpResult :=
  let name := pyStrip nameInput
  if name = "" then (st, .validationError "İsim boş olamaz!")
  else
    let number := pyStrip numberInput
    if !_validate_phone_number number then
      (st, .validationError "Geçersiz telefon numarası!")
    else if !_validate_password passwordInput then
      (st, .validationError "Şifre gereksinimleri karşılanmıyor!")
    else
      let user : UserRecord := ⟨name, number, _hash_password passwordInput, now⟩
      let st2 := _save_users { st with users := st.users ++ [user] }
      (st2, .ok)

/-- `UsersSave.find_user` (src/main.py lines 107–109): first record whose
`number` equals the argument, if any. -/
def find_user (st : UsersSave) (phone_number : String) : Option UserRecord :=
  st.users.find? fun u => u.number == phone_number

/-- `UsersSave.update_user` (src/main.py lines 111–155).  The source mutates
the dict returned by `find_user` in place; that dict is the first record
whose number matches, so the in-place assignment is embedded as `List.set`
at the first matching index. -/
def update_user (st : UsersSave) (numberInput choice newValueInput : String) :
    UsersSave × OpResult :=
  match find_user st numberInput with
  | none => (st, .notFound)
  | some user =>
    let i := st.users.findIdx fun u => u.number == numberInput
    if choice = "1" then
      let new_name := pyStrip newValueInput
      if new_name = "" then (st, .validationError "İsim boş olamaz!")
      else
        (_save_users { st with users := st.users.set i { user with name := new_name } }, .ok)
    else if choice = "2" then
      let new_number := pyStrip newValueInput
      if !_validate_phone_number new_number then
        (st, .validationError "Geçersiz telefon numarası!")
      else
        (_save_users { st with users := st.users.set i { user with number := new_number } }, .ok)
    else if choice = "3" then
      if !_validate_password newValueInput then
        (st, .validationError "Şifre gereksinimleri karşılanmıyor!")
      else
        (_save_users { st with users := st.users.set i { user with password := _hash_password newValueInput } }, .ok)
    else (st, .invalidSelection)

/-- `UsersSave.delete_user` (src/main.py lines 157–168): look up the first
record with the given number; `self.users.remove(user)` removes the first
list element equal to that dict (`List.erase` has exactly these
semantics). -/
def delete_user (st : UsersSave) (numberInput : String) : UsersSave × OpResult :=
  match find_user st numberInput with
  | none => (st, .notFound)
  | some user =>
    (_save_users { st with users := st.users.erase user }, .ok)

/-! ## Lemmas about the regex matcher -/

/-! ## Spec-side shape definitions used in the claim statements -/

/-- The shape the specification describes for a valid phone string:
11 characters, all digits, beginning `"05"`. -/
def phoneShape (l : List Char) : Prop :=
  l.length = 11 ∧ (∀ c ∈ l, pyDigit c = true) ∧ l.take 2 = ['0', '5']

/-- The validity condition `add_user` enforces: non-empty name after
stripping, stripped phone number passing validation, password passing
validation. -/
def addValid (nameInput numberInput passwordInput : String) : Prop :=
  pyStrip nameInput ≠ "" ∧ _validate_phone_number (pyStrip numberInput) = true ∧
    _validate_password passwordInput = true

/-- No leading and no trailing `str.strip()`-whitespace. -/
def noSurroundingWs (s : String) : Prop :=
  (∀ c, s.data.head? = some c → pyIsSpace c = false) ∧
  (∀ c, s.data.getLast? = some c → pyIsSpace c = false)

/-- The shape of a `hexdigest()` result: 64 characters, all lowercase
hexadecimal digits. -/
def sha256HexShape (s : String) : Prop :=
  s.length = 64 ∧ ∀ c ∈ s.data, c ∈ ("0123456789abcdef" : String).data

theorem reMatches_eps (l : List Char) (k : List Char → Bool) :
    reMatches .epsilon l k = k l := rfl

theorem reMatches_seq (r1 r2 : Re) (l : List Char) (k : List Char → Bool) :
    reMatches (.seq r1 r2) l k = reMatches r1 l (fun s2 => reMatches r2 s2 k) := rfl

theorem reMatches_lit_nil (c : Char) (k : List Char → Bool) :
    reMatches (.lit c) [] k = false := rfl

theorem reMatches_lit_cons (c c2 : Char) (rest : List Char) (k : List Char → Bool) :
    reMatches (.lit c) (c2 :: rest) k = (decide (c2 = c) && k rest) := rfl

theorem reMatches_cls_nil (p : Char → Bool) (k : List Char → Bool) :
    reMatches (.cls p) [] k = false := rfl

theorem reMatches_cls_cons (p : Char → Bool) (c : Char) (rest : List Char) (k : List Char → Bool) :
    reMatches (.cls p) (c :: rest) k = (p c && k rest) := rfl

theorem reMatches_dollar (l : List Char) (k : List Char → Bool) :
    reMatches .dollar l k = ((decide (l = []) || decide (l = ['\n'])) && k l) := rfl

/-- `re.search` with a single character class finds a match exactly when some
character of the string satisfies the class. -/
theorem re_search_cls (p : Char → Bool) (s : String) :
    re_search (.cls p) s = s.data.any p := by
  unfold re_search
  generalize s.data = l
  induction l with
  | nil => simp [reMatches_cls_nil]
  | cons c t ih =>
    rw [List.length_cons, List.range_succ_eq_map, List.any_cons, List.any_map]
    have h1 : ((fun i => reMatches (.cls p) ((c :: t).drop i) fun _ => true) ∘ Nat.succ)
        = (fun i => reMatches (.cls p) (t.drop i) fun _ => true) := by
      funext i
      simp [Function.comp, List.drop_succ_cons]
    rw [h1, ih, List.any_cons]
    simp [reMatches_cls_cons]

/-- Matching `n` repetitions of a character class consumes exactly `n`
characters, all satisfying the class. -/
theorem reMatches_rep_cls (p : Char → Bool) :
    ∀ (n : Nat) (l : List Char) (k : List Char → Bool),
      reMatches (reRep n (.cls p)) l k =
        (decide ((l.take n).length = n) && (l.take n).all p && k (l.drop n))
  | 0, l, k => by simp [reRep, reSeq, reMatches_eps]
  | n + 1, l, k => by
    have hrep : reRep (n + 1) (.cls p) = .seq (.cls p) (reRep n (.cls p)) := by
      simp [reRep, reSeq, List.replicate_succ]
    rw [hrep, reMatches_seq]
    cases l with
    | nil => simp [reMatches_cls_nil]
    | cons c t =>
      rw [reMatches_cls_cons, reMatches_rep_cls p n t k]
      simp only [List.take_succ_cons, List.drop_succ_cons, List.all_cons, List.length_cons]
      cases hp : p c <;> cases hk : k (t.drop n) <;>
        simp [Nat.succ_inj, Bool.and_assoc, Bool.and_comm, Bool.and_left_comm]

/-- The tail of the phone pattern after the literal `"05"`: nine digit
classes followed by the `$` anchor. -/
theorem phone_tail_match (t : List Char) :
    reMatches (.seq (reRep 9 (.cls pyDigit)) (.seq .dollar .epsilon)) t (fun _ => true)
      = (decide ((t.take 9).length = 9) && (t.take 9).all pyDigit &&
          (decide (t.drop 9 = []) || decide (t.drop 9 = ['\n']))) := by
  rw [reMatches_seq, reMatches_rep_cls]
  simp only [reMatches_seq, reMatches_dollar, reMatches_eps, Bool.and_true]

/-- Characterization of the phone matcher straight from the pattern
`05\d{9}$` under Python `re.match` semantics. -/
theorem validate_phone_eq (s : String) :
    _validate_phone_number s = true ↔
      ∃ t, s.data = '0' :: '5' :: t ∧ (t.take 9).length = 9 ∧
        (t.take 9).all pyDigit = true ∧ (t.drop 9 = [] ∨ t.drop 9 = ['\n']) := by
  have hre : phoneRe =
      .seq (.lit '0') (.seq (.lit '5')
        (.seq (reRep 9 (.cls pyDigit)) (.seq .dollar .epsilon))) := rfl
  unfold _validate_phone_number re_match
  rw [hre]
  cases hd : s.data with
  | nil => simp [reMatches_seq, reMatches_lit_nil]
  | cons c0 r =>
    cases r with
    | nil =>
      simp [reMatches_seq, reMatches_lit_cons, reMatches_lit_nil]
    | cons c1 t =>
      rw [reMatches_seq, reMatches_lit_cons]
      conv_lhs => rw [reMatches_seq, reMatches_lit_cons]
      rw [phone_tail_match]
      constructor
      · intro h
        simp only [Bool.and_eq_true, Bool.or_eq_true, decide_eq_true_eq] at h
        obtain ⟨hc0, hc1, ⟨hlen, hall⟩, hend⟩ := h
        subst hc0; subst hc1
        exact ⟨t, rfl, hlen, hall, hend⟩
      · rintro ⟨t', ht', hlen, hall, hend⟩
        have hc0 : c0 = '0' := by
          have := congrArg (fun l => l.head?) ht'; simpa using this
        have hc1c : c1 :: t = '5' :: t' := by
          have := congrArg (fun l => l.tail) ht'; simpa using this
        have hc1 : c1 = '5' := by
          have := congrArg (fun l => l.head?) hc1c; simpa using this
        have ht : t = t' := by
          have := congrArg (fun l => l.tail) hc1c; simpa using this
        subst hc0; subst hc1; subst ht
        simp only [Bool.and_eq_true, Bool.or_eq_true, decide_eq_true_eq]
        exact ⟨trivial, trivial, ⟨hlen, hall⟩, hend⟩

/-- Bridge between the matcher characterization and the spec's shape,
with the extra trailing-newline case Python's `$` admits. -/
theorem phone_core_iff (l : List Char) :
    (∃ t, l = '0' :: '5' :: t ∧ (t.take 9).length = 9 ∧
        (t.take 9).all pyDigit = true ∧ (t.drop 9 = [] ∨ t.drop 9 = ['\n'])) ↔
      (phoneShape l ∨ ∃ core, l = core ++ ['\n'] ∧ phoneShape core) := by
  constructor
  · rintro ⟨t, rfl, hlen, hall, hend | hend⟩
    · left
      have hle : t.length ≤ 9 := by
        have := List.drop_eq_nil_iff.mp hend
        omega
      have hteq : t.take 9 = t := List.take_of_length_le hle
      rw [hteq] at hlen hall
      refine ⟨by simp [hlen], ?_, by simp⟩
      intro c hc
      rcases List.mem_cons.mp hc with rfl | hc
      · decide
      rcases List.mem_cons.mp hc with rfl | hc
      · decide
      exact List.all_eq_true.mp hall c hc
    · right
      have hsplit : t = t.take 9 ++ ['\n'] := by
        conv_lhs => rw [← List.take_append_drop 9 t, hend]
      refine ⟨'0' :: '5' :: t.take 9, ?_, ?_⟩
      · conv_lhs => rw [hsplit]
        simp
      refine ⟨by simp [hlen], ?_, by simp⟩
      intro c hc
      rcases List.mem_cons.mp hc with rfl | hc
      · decide
      rcases List.mem_cons.mp hc with rfl | hc
      · decide
      exact List.all_eq_true.mp hall c hc
  · rintro (⟨hlen, hdig, htake⟩ | ⟨core, rfl, hlen, hdig, htake⟩)
    · match l, hlen with
      | c0 :: c1 :: t, hlen =>
        have h05 : c0 = '0' ∧ c1 = '5' := by
          simp [List.take_succ_cons] at htake
          exact htake
        obtain ⟨rfl, rfl⟩ := h05
        have ht9 : t.length = 9 := by simpa using hlen
        have hteq : t.take 9 = t := List.take_of_length_le (by omega)
        refine ⟨t, rfl, ?_, ?_, Or.inl ?_⟩
        · rw [hteq]; omega
        · rw [hteq, List.all_eq_true]
          intro c hc
          exact hdig c (by simp [hc])
        · rw [List.drop_eq_nil_iff]; omega
    · match core, hlen with
      | c0 :: c1 :: t0, hlen =>
        have h05 : c0 = '0' ∧ c1 = '5' := by
          simp [List.take_succ_cons] at htake
          exact htake
        obtain ⟨rfl, rfl⟩ := h05
        have ht9 : t0.length = 9 := by simpa using hlen
        refine ⟨t0 ++ ['\n'], by simp, ?_, ?_, Or.inr ?_⟩
        · rw [← ht9, List.take_left]
        · rw [← ht9, List.take_left, List.all_eq_true]
          intro c hc
          exact hdig c (by simp [hc])
        · rw [← ht9, List.drop_left]

/-- C2 as stated is false on the code: Python's `$` (without `re.MULTILINE`)
also matches just before a newline that ends the string, so
`_validate_phone_number` accepts the 12-character string
`"05123456789\n"`, which has an extra character after the 11 digits. -/
theorem claim_C2_counterexample :
    _validate_phone_number "05123456789\n" = true ∧
      ("05123456789\n" : String).length = 12 := by
  constructor
  · decide
  · decide

/-- C2 (amended): `validatePhoneNumber` returns true for exactly the strings
that are 11 characters long, consist only of digits and begin `"05"`, *or*
such a string followed by one trailing newline character (admitted by
Python's `$` anchor); the spec's four examples behave as claimed, and no
other whitespace is tolerated. -/
theorem claim_C2_validate_phone (s : String) :
    (_validate_phone_number s = true ↔
      (phoneShape s.data ∨ ∃ core, s.data = core ++ ['\n'] ∧ phoneShape core)) ∧
    _validate_phone_number "05123456789" = true ∧
    _validate_phone_number "0512345678" = false ∧
    _validate_phone_number "15123456789" = false ∧
    _validate_phone_number "05123456789x" = false ∧
    _validate_phone_number " 05123456789" = false ∧
    _validate_phone_number "05123456789 " = false := by
  refine ⟨?_, by decide, by decide, by decide, by decide, by decide, by decide⟩
  rw [validate_phone_eq]
  exact phone_core_iff s.data

/-- C3: `validatePassword` accepts exactly the strings of length at least 8
containing an uppercase letter, a lowercase letter and a digit, with the
spec's five examples behaving as claimed. -/
theorem claim_C3_validate_password (s : String) :
    (_validate_password s = true ↔
      8 ≤ s.length ∧ (∃ c ∈ s.data, upperCls c = true) ∧
        (∃ c ∈ s.data, lowerCls c = true) ∧ (∃ c ∈ s.data, pyDigit c = true)) ∧
    _validate_password "Abcdefg1" = true ∧
    _validate_password "abcdefg1" = false ∧
    _validate_password "ABCDEFG1" = false ∧
    _validate_password "Abcdefgh" = false ∧
    _validate_password "Ab1" = false := by
  refine ⟨?_, by decide, by decide, by decide, by decide, by decide⟩
  unfold _validate_password
  rw [re_search_cls, re_search_cls, re_search_cls]
  split_ifs with h1 h2 h3 h4
  · simp only [false_iff]
    rintro ⟨h8, -⟩
    omega
  · simp only [Bool.not_eq_true'] at h2
    simp only [false_iff]
    rintro ⟨-, ⟨c, hc, hcu⟩, -, -⟩
    rw [List.any_eq_false] at h2
    exact absurd hcu (by simp [h2 c hc])
  · simp only [Bool.not_eq_true'] at h3
    simp only [false_iff]
    rintro ⟨-, -, ⟨c, hc, hcl⟩, -⟩
    rw [List.any_eq_false] at h3
    exact absurd hcl (by simp [h3 c hc])
  · simp only [Bool.not_eq_true'] at h4
    simp only [false_iff]
    rintro ⟨-, -, -, c, hc, hcd⟩
    rw [List.any_eq_false] at h4
    exact absurd hcd (by simp [h4 c hc])
  · simp only [Bool.not_eq_true', Bool.not_eq_false] at h2 h3 h4
    simp only [true_iff]
    exact ⟨by omega, List.any_eq_true.mp h2, List.any_eq_true.mp h3, List.any_eq_true.mp h4⟩

/-! ## Claims about `add_user` and the error paths of `update_user` -/

/-- On valid inputs `add_user` appends the stripped-and-hashed record and
persists (shared characterization for the claims below). -/
theorem add_user_valid_eq (st : UsersSave) (nm pn pw now : String)
    (h1 : ¬ pyStrip nm = "") (h2 : _validate_phone_number (pyStrip pn) = true)
    (h3 : _validate_password pw = true) :
    add_user st nm pn pw now
      = (_save_users { st with
          users := st.users ++ [⟨pyStrip nm, pyStrip pn, _hash_password pw, now⟩] }, .ok) := by
  simp only [add_user, if_neg h1, h2, h3, Bool.not_true, Bool.false_eq_true, if_false]

/-- C1: with valid inputs, `add_user` appends exactly one record at the end,
grows the collection by exactly 1, and persists the new collection; with any
invalid input it returns a validation error and leaves the state (collection
and file) unchanged. -/
theorem claim_C1_add_user (st : UsersSave) (nm pn pw now : String) :
    (addValid nm pn pw →
      (add_user st nm pn pw now).1.users
          = st.users ++ [⟨pyStrip nm, pyStrip pn, _hash_password pw, now⟩] ∧
        (add_user st nm pn pw now).1.users.length = st.users.length + 1 ∧
        (add_user st nm pn pw now).1.fileContent
          = some (dumpUsers (st.users ++ [⟨pyStrip nm, pyStrip pn, _hash_password pw, now⟩])) ∧
        (add_user st nm pn pw now).2 = .ok) ∧
    (¬ addValid nm pn pw →
      (add_user st nm pn pw now).1 = st ∧
        ∃ msg, (add_user st nm pn pw now).2 = .validationError msg) := by
  constructor
  · rintro ⟨h1, h2, h3⟩
    rw [add_user_valid_eq st nm pn pw now h1 h2 h3]
    refine ⟨rfl, by simp [_save_users], rfl, rfl⟩
  · intro h
    by_cases h1 : pyStrip nm = ""
    · simp only [add_user, if_pos h1]
      exact ⟨trivial, _, rfl⟩
    by_cases h2 : _validate_phone_number (pyStrip pn) = true
    · by_cases h3 : _validate_password pw = true
      · exact absurd ⟨h1, h2, h3⟩ h
      · have h3f : _validate_password pw = false := Bool.eq_false_iff.mpr h3
        simp only [add_user, if_neg h1, h2, h3f, Bool.not_true, Bool.not_false,
          Bool.false_eq_true, if_false, if_true]
        exact ⟨trivial, _, rfl⟩
    · have h2f : _validate_phone_number (pyStrip pn) = false := Bool.eq_false_iff.mpr h2
      simp only [add_user, if_neg h1, h2f, Bool.not_false, if_true]
      exact ⟨trivial, _, rfl⟩

theorem claim_C1_witness :
    addValid "Ali " "05123456789" "Abcdefg1" ∧
      ((add_user ⟨[], none⟩ "Ali " "05123456789" "Abcdefg1" "2024-01-01T00:00:00").1.users
          = [] ++ [⟨pyStrip "Ali ", pyStrip "05123456789",
              _hash_password "Abcdefg1", "2024-01-01T00:00:00"⟩] ∧
        (add_user ⟨[], none⟩ "Ali " "05123456789" "Abcdefg1" "2024-01-01T00:00:00").1.users.length
          = ([] : List UserRecord).length + 1 ∧
        (add_user ⟨[], none⟩ "Ali " "05123456789" "Abcdefg1" "2024-01-01T00:00:00").1.fileContent
          = some (dumpUsers ([] ++ [⟨pyStrip "Ali ", pyStrip "05123456789",
              _hash_password "Abcdefg1", "2024-01-01T00:00:00"⟩])) ∧
        (add_user ⟨[], none⟩ "Ali " "05123456789" "Abcdefg1" "2024-01-01T00:00:00").2 = .ok) :=
  ⟨⟨by decide, by decide, by decide⟩,
    (claim_C1_add_user ⟨[], none⟩ "Ali " "05123456789" "Abcdefg1" "2024-01-01T00:00:00").1
      ⟨by decide, by decide, by decide⟩⟩

/-- C4: `update_user` with a phone number matching no record reports
not-found and leaves the whole state — collection and file content —
unchanged. -/
theorem claim_C4_update_user_not_found (st : UsersSave) (n choice newValue : String)
    (h : ∀ u ∈ st.users, u.number ≠ n) :
    update_user st n choice newValue = (st, .notFound) := by
  have hf : find_user st n = none := by
    rw [find_user, List.find?_eq_none]
    intro u hu
    simp [h u hu]
  unfold update_user
  rw [hf]

theorem claim_C4_witness :
    (∀ u ∈ ([⟨"A", "05000000000", "p", "t"⟩] : List UserRecord), u.number ≠ "05111111111") ∧
      update_user ⟨[⟨"A", "05000000000", "p", "t"⟩], some "[]"⟩ "05111111111" "1" "B"
        = (⟨[⟨"A", "05000000000", "p", "t"⟩], some "[]"⟩, .notFound) :=
  ⟨by decide,
    claim_C4_update_user_not_found ⟨[⟨"A", "05000000000", "p", "t"⟩], some "[]"⟩
      "05111111111" "1" "B" (by decide)⟩

/-- C5: when the target exists, a field selector other than `"1"`, `"2"`,
`"3"` makes `update_user` report an invalid selection and leaves the state
untouched. -/
theorem claim_C5_invalid_selection (st : UsersSave) (n choice newValue : String)
    (hfound : (find_user st n).isSome = true)
    (hc : choice ≠ "1" ∧ choice ≠ "2" ∧ choice ≠ "3") :
    update_user st n choice newValue = (st, .invalidSelection) := by
  obtain ⟨u, hu⟩ := Option.isSome_iff_exists.mp hfound
  unfold update_user
  rw [hu]
  simp only [if_neg hc.1, if_neg hc.2.1, if_neg hc.2.2]

theorem claim_C5_witness :
    (find_user ⟨[⟨"A", "05000000000", "p", "t"⟩], none⟩ "05000000000").isSome = true ∧
      update_user ⟨[⟨"A", "05000000000", "p", "t"⟩], none⟩ "05000000000" "4" "B"
        = (⟨[⟨"A", "05000000000", "p", "t"⟩], none⟩, .invalidSelection) :=
  ⟨by decide,
    claim_C5_invalid_selection ⟨[⟨"A", "05000000000", "p", "t"⟩], none⟩ "05000000000" "4" "B"
      (by decide) ⟨by decide, by decide, by decide⟩⟩

/-! ## First-match lemmas for `find?` / `findIdx` -/

/-- If `find?` returns `u`, then `findIdx` points at `u`, it is the first
index satisfying the predicate, and `u` satisfies it. -/
theorem find?_first_index {α : Type} (p : α → Bool) (l : List α) (u : α)
    (h : l.find? p = some u) :
    l.findIdx p < l.length ∧ l[l.findIdx p]? = some u ∧ p u = true ∧
      ∀ j, j < l.findIdx p → ∀ x, l[j]? = some x → p x = false := by
  induction l with
  | nil => simp [List.find?] at h
  | cons a t ih =>
    by_cases hp : p a = true
    · rw [List.find?_cons_of_pos _ hp] at h
      obtain rfl : a = u := Option.some.inj h
      have hidx : (a :: t).findIdx p = 0 := by
        rw [List.findIdx_cons, hp, cond_true]
      rw [hidx]
      refine ⟨by simp, by simp, hp, ?_⟩
      intro j hj
      omega
    · have hpf : p a = false := Bool.eq_false_iff.mpr hp
      rw [List.find?_cons_of_neg _ hp] at h
      obtain ⟨hlt, hget, hpu, hfirst⟩ := ih h
      have hidx : (a :: t).findIdx p = t.findIdx p + 1 := by
        rw [List.findIdx_cons, hpf, cond_false]
      rw [hidx]
      refine ⟨by simpa using Nat.succ_lt_succ hlt, by simpa using hget, hpu, ?_⟩
      intro j hj x hx
      cases j with
      | zero =>
        obtain rfl : a = x := by simpa using hx
        exact hpf
      | succ k =>
        rw [List.getElem?_cons_succ] at hx
        exact hfirst k (by omega) x hx

/-! ## C6: successful updates change only the selected field -/

/-- Characterization of a successful `update_user`: the target is the record
`find_user` returns, and the new collection replaces the first matching
index with a record differing from it at most in the selected field
(`created_at` never changes). -/
theorem update_user_ok (st : UsersSave) (n c v : String)
    (h : (update_user st n c v).2 = .ok) :
    ∃ u, find_user st n = some u ∧
      ∃ r', (update_user st n c v).1
          = _save_users { st with
              users := st.users.set (st.users.findIdx fun r => r.number == n) r' } ∧
        r'.created_at = u.created_at ∧
        (c ≠ "1" → r'.name = u.name) ∧
        (c ≠ "2" → r'.number = u.number) ∧
        (c ≠ "3" → r'.password = u.password) ∧
        (c = "1" → r'.name = pyStrip v ∧ pyStrip v ≠ "") ∧
        (c = "2" → r'.number = pyStrip v ∧ _validate_phone_number (pyStrip v) = true) ∧
        (c = "3" → r'.password = _hash_password v) := by
  cases hf : find_user st n with
  | none =>
    unfold update_user at h
    rw [hf] at h
    exact absurd h (by simp)
  | some u =>
    unfold update_user at h ⊢
    rw [hf] at h ⊢
    simp only [] at h ⊢
    refine ⟨u, rfl, ?_⟩
    by_cases hc1 : c = "1"
    · rw [if_pos hc1] at h ⊢
      by_cases hname : pyStrip v = ""
      · rw [if_pos hname] at h
        exact absurd h (by simp)
      · rw [if_neg hname] at h ⊢
        exact ⟨{ u with name := pyStrip v }, rfl, rfl,
          fun hcc => absurd hc1 hcc, fun _ => rfl, fun _ => rfl,
          fun _ => ⟨rfl, hname⟩,
          fun hc2 => absurd (hc1.symm.trans hc2) (by decide),
          fun hc3 => absurd (hc1.symm.trans hc3) (by decide)⟩
    · rw [if_neg hc1] at h ⊢
      by_cases hc2 : c = "2"
      · rw [if_pos hc2] at h ⊢
        by_cases hph : _validate_phone_number (pyStrip v) = true
        · rw [hph] at h ⊢
          simp only [Bool.not_true, Bool.false_eq_true, if_false] at h ⊢
          exact ⟨{ u with number := pyStrip v }, rfl, rfl,
            fun _ => rfl, fun hcc => absurd hc2 hcc, fun _ => rfl,
            fun hc1c => absurd (hc2.symm.trans hc1c) (by decide),
            fun _ => ⟨rfl, trivial⟩,
            fun hc3 => absurd (hc2.symm.trans hc3) (by decide)⟩
        · have hphf := Bool.eq_false_iff.mpr hph
          rw [hphf] at h
          exact absurd h (by simp)
      · rw [if_neg hc2] at h ⊢
        by_cases hc3 : c = "3"
        · rw [if_pos hc3] at h ⊢
          by_cases hpw : _validate_password v = true
          · rw [hpw] at h ⊢
            simp only [Bool.not_true, Bool.false_eq_true, if_false] at h ⊢
            exact ⟨{ u with password := _hash_password v }, rfl, rfl,
              fun _ => rfl, fun _ => rfl, fun hcc => absurd hc3 hcc,
              fun hc1c => absurd (hc3.symm.trans hc1c) (by decide),
              fun hc2c => absurd (hc3.symm.trans hc2c) (by decide),
              fun _ => rfl⟩
          · have hpwf := Bool.eq_false_iff.mpr hpw
            rw [hpwf] at h
            exact absurd h (by simp)
        · rw [if_neg hc3] at h
          exact absurd h (by simp)

/-- C6: a successful `update_user` rewrites exactly the first record whose
number matches, in place: the collection keeps its length, every other
position is untouched, the target keeps its position, its `created_at` is
never modified, and every non-selected field keeps its prior value. -/
theorem claim_C6_update_frame (st : UsersSave) (n c v : String)
    (h : (update_user st n c v).2 = .ok) :
    ∃ i r, (st.users.findIdx fun u => u.number == n) = i ∧ i < st.users.length ∧
      st.users[i]? = some r ∧ r.number = n ∧
      (∀ j, j < i → ∀ x, st.users[j]? = some x → x.number ≠ n) ∧
      (update_user st n c v).1.users.length = st.users.length ∧
      (∀ j, j ≠ i → (update_user st n c v).1.users[j]? = st.users[j]?) ∧
      ∃ r', (update_user st n c v).1.users[i]? = some r' ∧
        r'.created_at = r.created_at ∧
        (c ≠ "1" → r'.name = r.name) ∧
        (c ≠ "2" → r'.number = r.number) ∧
        (c ≠ "3" → r'.password = r.password) := by
  obtain ⟨u, hf, r', hst, hca, h1, h2, h3, -, -, -⟩ := update_user_ok st n c v h
  have hfq : st.users.find? (fun r => r.number == n) = some u := hf
  obtain ⟨hlt, hget, hpu, hfirst⟩ := find?_first_index (fun r => r.number == n) st.users u hfq
  refine ⟨st.users.findIdx fun r => r.number == n, u, rfl, hlt, hget, by simpa using hpu,
    ?_, ?_, ?_, ?_⟩
  · intro j hj x hx
    have := hfirst j hj x hx
    simpa using this
  · rw [hst]
    simp [_save_users]
  · intro j hj
    rw [hst]
    simp only [_save_users]
    exact List.getElem?_set_ne (fun he => hj he.symm)
  · refine ⟨r', ?_, hca, h1, h2, h3⟩
    rw [hst]
    simp only [_save_users]
    exact List.getElem?_set_self hlt

theorem claim_C6_witness :
    ((update_user ⟨[⟨"A", "05000000000", "p", "t"⟩], none⟩ "05000000000" "1" "B").2
        = OpResult.ok) ∧
      (∃ i r, (([⟨"A", "05000000000", "p", "t"⟩] : List UserRecord).findIdx
            fun u => u.number == "05000000000") = i ∧
        i < ([⟨"A", "05000000000", "p", "t"⟩] : List UserRecord).length ∧
        ([⟨"A", "05000000000", "p", "t"⟩] : List UserRecord)[i]? = some r ∧
        r.number = "05000000000" ∧
        (∀ j, j < i → ∀ x, ([⟨"A", "05000000000", "p", "t"⟩] : List UserRecord)[j]? = some x →
          x.number ≠ "05000000000") ∧
        (update_user ⟨[⟨"A", "05000000000", "p", "t"⟩], none⟩ "05000000000" "1" "B").1.users.length
          = ([⟨"A", "05000000000", "p", "t"⟩] : List UserRecord).length ∧
        (∀ j, j ≠ i →
          (update_user ⟨[⟨"A", "05000000000", "p", "t"⟩], none⟩ "05000000000" "1" "B").1.users[j]?
            = ([⟨"A", "05000000000", "p", "t"⟩] : List UserRecord)[j]?) ∧
        ∃ r', (update_user ⟨[⟨"A", "05000000000", "p", "t"⟩], none⟩ "05000000000" "1" "B").1.users[i]?
            = some r' ∧
          r'.created_at = r.created_at ∧
          ("1" ≠ "1" → r'.name = r.name) ∧
          ("1" ≠ "2" → r'.number = r.number) ∧
          ("1" ≠ "3" → r'.password = r.password)) :=
  ⟨by decide,
    claim_C6_update_frame ⟨[⟨"A", "05000000000", "p", "t"⟩], none⟩ "05000000000" "1" "B"
      (by decide)⟩

/-! ## C7: deletion removes exactly the first match -/

/-- Erasing the record returned by `find?` removes exactly the element at
the first matching index. -/
theorem erase_find?_eq (l : List UserRecord) (n : String) (u : UserRecord)
    (h : l.find? (fun r => r.number == n) = some u) :
    l.erase u = l.take (l.findIdx fun r => r.number == n)
      ++ l.drop ((l.findIdx fun r => r.number == n) + 1) := by
  induction l with
  | nil => simp [List.find?] at h
  | cons a t ih =>
    by_cases hp : (a.number == n) = true
    · rw [@List.find?_cons_of_pos _ (fun r => r.number == n) a t hp] at h
      obtain rfl : a = u := Option.some.inj h
      have hidx : ((a :: t).findIdx fun r => r.number == n) = 0 := by
        rw [List.findIdx_cons, hp, cond_true]
      rw [hidx, List.erase_cons_head]
      simp
    · have hpf : (a.number == n) = false := Bool.eq_false_iff.mpr hp
      rw [@List.find?_cons_of_neg _ (fun r => r.number == n) a t hp] at h
      have hu : (u.number == n) = true := @List.find?_some _ (fun r => r.number == n) u t h
      have hane : (a == u) = false := by
        rw [beq_eq_false_iff_ne]
        intro he
        rw [he, hu] at hpf
        cases hpf
      have hidx : ((a :: t).findIdx fun r => r.number == n)
          = (t.findIdx fun r => r.number == n) + 1 := by
        rw [List.findIdx_cons, hpf, cond_false]
      rw [hidx, List.erase_cons_tail, List.take_succ_cons, List.drop_succ_cons, ih h,
        List.cons_append]
      simp [hane]

/-- C7: when at least two records share the given number, `delete_user`
removes exactly one — the first match in insertion order — preserving the
relative order of the rest; with no match it reports not-found and removes
nothing. -/
theorem claim_C7_delete_user (st : UsersSave) (n : String) :
    (2 ≤ st.users.countP (fun u => u.number == n) →
      ∃ i, (st.users.findIdx fun u => u.number == n) = i ∧ i < st.users.length ∧
        (∃ r, st.users[i]? = some r ∧ r.number = n) ∧
        (∀ j, j < i → ∀ x, st.users[j]? = some x → x.number ≠ n) ∧
        (delete_user st n).1.users = st.users.take i ++ st.users.drop (i + 1) ∧
        (delete_user st n).1.users.length + 1 = st.users.length ∧
        (delete_user st n).2 = .ok) ∧
    ((∀ u ∈ st.users, u.number ≠ n) → delete_user st n = (st, .notFound)) := by
  constructor
  · intro hcount
    have hpos : 0 < st.users.countP fun u => u.number == n := by omega
    have hex : ∃ u ∈ st.users, (u.number == n) = true := List.countP_pos_iff.mp hpos
    obtain ⟨u, hfu⟩ : ∃ u, st.users.find? (fun r => r.number == n) = some u := by
      cases hfind : st.users.find? fun r => r.number == n with
      | none =>
        rw [List.find?_eq_none] at hfind
        obtain ⟨u, hu, hpu⟩ := hex
        exact absurd hpu (hfind u hu)
      | some u => exact ⟨u, rfl⟩
    have hf : find_user st n = some u := hfu
    obtain ⟨hlt, hget, hpu, hfirst⟩ := find?_first_index (fun r => r.number == n) st.users u hfu
    have hdel : delete_user st n
        = (_save_users { st with users := st.users.erase u }, .ok) := by
      unfold delete_user
      rw [hf]
    refine ⟨st.users.findIdx fun r => r.number == n, rfl, hlt,
      ⟨u, hget, by simpa using hpu⟩, ?_, ?_, ?_, by rw [hdel]⟩
    · intro j hj x hx
      have := hfirst j hj x hx
      simpa using this
    · rw [hdel]
      simp only [_save_users]
      exact erase_find?_eq st.users n u hfu
    · rw [hdel]
      simp only [_save_users]
      have hmem : u ∈ st.users := List.mem_of_find?_eq_some hfu
      rw [List.length_erase_of_mem hmem]
      have : 1 ≤ st.users.length := List.length_pos.mpr (List.ne_nil_of_mem hmem)
      omega
  · intro h
    have hf : find_user st n = none := by
      rw [find_user, List.find?_eq_none]
      intro u hu
      simp [h u hu]
    unfold delete_user
    rw [hf]

theorem claim_C7_witness :
    (2 ≤ ([⟨"A", "05000000000", "p", "t"⟩, ⟨"B", "05000000000", "q", "t2"⟩,
        ⟨"C", "05222222222", "r", "t3"⟩] : List UserRecord).countP
          (fun u => u.number == "05000000000")) ∧
      (delete_user ⟨[⟨"A", "05000000000", "p", "t"⟩, ⟨"B", "05000000000", "q", "t2"⟩,
          ⟨"C", "05222222222", "r", "t3"⟩], none⟩ "05000000000").1.users
        = [⟨"B", "05000000000", "q", "t2"⟩, ⟨"C", "05222222222", "r", "t3"⟩] := by
  refine ⟨by decide, ?_⟩
  obtain ⟨i, hi, -, -, -, heq, -, -⟩ :=
    (claim_C7_delete_user ⟨[⟨"A", "05000000000", "p", "t"⟩, ⟨"B", "05000000000", "q", "t2"⟩,
      ⟨"C", "05222222222", "r", "t3"⟩], none⟩ "05000000000").1 (by decide)
  have hi0 : i = 0 := by
    rw [← hi]
    decide
  rw [heq, hi0]
  decide

/-! ## C10: records written by `add_user` / `update_user` are normalized -/

theorem dropWhile_head?_not (p : Char → Bool) :
    ∀ (l : List Char) (c : Char), (l.dropWhile p).head? = some c → p c = false := by
  intro l
  induction l with
  | nil => intro c h; simp at h
  | cons a t ih =>
    intro c h
    rw [List.dropWhile_cons] at h
    by_cases hp : p a = true
    · rw [if_pos hp] at h
      exact ih c h
    · rw [if_neg hp] at h
      obtain rfl : a = c := by simpa using h
      exact Bool.eq_false_iff.mpr hp

theorem dropWhile_getLast?_of_ne_nil (p : Char → Bool) :
    ∀ l : List Char, l.dropWhile p ≠ [] → (l.dropWhile p).getLast? = l.getLast? := by
  intro l
  induction l with
  | nil => intro h; simp at h
  | cons a t ih =>
    intro h
    rw [List.dropWhile_cons] at h ⊢
    by_cases hp : p a = true
    · rw [if_pos hp] at h ⊢
      have ht : t ≠ [] := by
        intro he
        rw [he] at h
        simp at h
      rw [ih h]
      cases t with
      | nil => exact absurd rfl ht
      | cons b t2 => simp [List.getLast?_cons]
    · rw [if_neg hp]

/-- `str.strip()` output has no whitespace at either end. -/
theorem pyStrip_noSurroundingWs (s : String) : noSurroundingWs (pyStrip s) := by
  constructor
  · intro c h
    have h2 : ((s.data.dropWhile pyIsSpace).reverse.dropWhile pyIsSpace).reverse.head? = some c := h
    rw [List.head?_reverse] at h2
    have hne : (s.data.dropWhile pyIsSpace).reverse.dropWhile pyIsSpace ≠ [] := by
      intro he
      rw [he] at h2
      simp at h2
    rw [dropWhile_getLast?_of_ne_nil _ _ hne, List.getLast?_reverse] at h2
    exact dropWhile_head?_not pyIsSpace s.data c h2
  · intro c h
    have h2 : ((s.data.dropWhile pyIsSpace).reverse.dropWhile pyIsSpace).reverse.getLast? = some c := h
    rw [List.getLast?_reverse] at h2
    exact dropWhile_head?_not pyIsSpace (s.data.dropWhile pyIsSpace).reverse c h2

theorem hexDigit_mem_alphabet : ∀ n, n < 16 → hexDigit n ∈ ("0123456789abcdef" : String).data := by
  decide

theorem wordHex_mem_alphabet (x : Nat) (c : Char) (h : c ∈ wordHex x) :
    c ∈ ("0123456789abcdef" : String).data := by
  simp only [wordHex, List.mem_cons, List.not_mem_nil, or_false] at h
  rcases h with rfl | rfl | rfl | rfl | rfl | rfl | rfl | rfl <;>
    exact hexDigit_mem_alphabet _ (Nat.mod_lt _ (by norm_num))

/-- `hexdigest()` always yields 64 lowercase hexadecimal characters. -/
theorem hash_password_shape (s : String) : sha256HexShape (_hash_password s) := by
  have hsw : ∃ a b c d e f g h : Nat,
      sha256Words (strBytes s) = [a, b, c, d, e, f, g, h] :=
    ⟨_, _, _, _, _, _, _, _, rfl⟩
  obtain ⟨a, b, c, d, e, f, g, h, hw⟩ := hsw
  constructor
  · show (_hash_password s).data.length = 64
    show ((sha256Words (strBytes s)).flatMap wordHex).length = 64
    rw [hw]
    simp [List.flatMap_cons, wordHex]
  · intro ch hch
    have hch2 : ch ∈ (sha256Words (strBytes s)).flatMap wordHex := hch
    rw [hw] at hch2
    rw [List.mem_flatMap] at hch2
    obtain ⟨x, -, hx⟩ := hch2
    exact wordHex_mem_alphabet x ch hx

/-- C10: every record created by `add_user` is normalized (stripped
non-empty name, stripped valid phone number, password stored as the
SHA-256 hex digest of the plaintext — 64 lowercase hex characters, not the
plaintext), and every field written by a successful `update_user` is
normalized in the same way. -/
theorem claim_C10_normalized (st : UsersSave) (nm pn pw now n c v : String) :
    ((add_user st nm pn pw now).2 = .ok →
      ∃ r, (add_user st nm pn pw now).1.users = st.users ++ [r] ∧
        r.name = pyStrip nm ∧ r.name ≠ "" ∧ noSurroundingWs r.name ∧
        r.number = pyStrip pn ∧ noSurroundingWs r.number ∧
        _validate_phone_number r.number = true ∧
        r.password = _hash_password pw ∧ sha256HexShape r.password ∧
        r.created_at = now) ∧
    ((update_user st n c v).2 = .ok →
      ∃ i r', (update_user st n c v).1.users = st.users.set i r' ∧
        (c = "1" → r'.name = pyStrip v ∧ r'.name ≠ "" ∧ noSurroundingWs r'.name) ∧
        (c = "2" → r'.number = pyStrip v ∧ noSurroundingWs r'.number ∧
          _validate_phone_number (pyStrip v) = true) ∧
        (c = "3" → r'.password = _hash_password v ∧ sha256HexShape r'.password)) := by
  constructor
  · intro h
    by_cases h1 : pyStrip nm = ""
    · rw [add_user, if_pos h1] at h
      exact absurd h (by simp)
    by_cases h2 : _validate_phone_number (pyStrip pn) = true
    · by_cases h3 : _validate_password pw = true
      · have hok : (add_user st nm pn pw now).1.users
            = st.users ++ [⟨pyStrip nm, pyStrip pn, _hash_password pw, now⟩] := by
          rw [add_user_valid_eq st nm pn pw now h1 h2 h3]
          rfl
        refine ⟨⟨pyStrip nm, pyStrip pn, _hash_password pw, now⟩, hok, rfl, h1,
          pyStrip_noSurroundingWs nm, rfl, pyStrip_noSurroundingWs pn, h2, rfl,
          hash_password_shape pw, rfl⟩
      · have h3f : _validate_password pw = false := Bool.eq_false_iff.mpr h3
        rw [add_user, if_neg h1] at h
        simp only [h3f, h2, Bool.not_true, Bool.not_false, Bool.false_eq_true, if_false,
          if_true] at h
        exact absurd h (by simp)
    · have h2f : _validate_phone_number (pyStrip pn) = false := Bool.eq_false_iff.mpr h2
      rw [add_user, if_neg h1] at h
      simp only [h2f, Bool.not_false, if_true] at h
      exact absurd h (by simp)
  · intro h
    obtain ⟨u, hf, r', hst, hca, hn1, hn2, hn3, hp1, hp2, hp3⟩ := update_user_ok st n c v h
    refine ⟨st.users.findIdx fun r => r.number == n, r', by rw [hst]; rfl, ?_, ?_, ?_⟩
    · intro hc1
      obtain ⟨he, hne⟩ := hp1 hc1
      exact ⟨he, by rw [he]; exact hne, by rw [he]; exact pyStrip_noSurroundingWs v⟩
    · intro hc2
      obtain ⟨he, hv⟩ := hp2 hc2
      exact ⟨he, by rw [he]; exact pyStrip_noSurroundingWs v, hv⟩
    · intro hc3
      have he := hp3 hc3
      exact ⟨he, by rw [he]; exact hash_password_shape v⟩

theorem claim_C10_witness :
    (add_user ⟨[⟨"A", "05000000000", "p", "t"⟩], none⟩ " Ali " "05123456789" "Abcdefg1" "T").2
        = OpResult.ok ∧
    (∃ r, (add_user ⟨[⟨"A", "05000000000", "p", "t"⟩], none⟩ " Ali " "05123456789" "Abcdefg1" "T").1.users
          = [⟨"A", "05000000000", "p", "t"⟩] ++ [r] ∧
        r.name = pyStrip " Ali " ∧ r.name ≠ "" ∧ noSurroundingWs r.name ∧
        r.number = pyStrip "05123456789" ∧ noSurroundingWs r.number ∧
        _validate_phone_number r.number = true ∧
        r.password = _hash_password "Abcdefg1" ∧ sha256HexShape r.password ∧
        r.created_at = "T") ∧
    (update_user ⟨[⟨"A", "05000000000", "p", "t"⟩], none⟩ "05000000000" "3" "Xy12345z").2
        = OpResult.ok ∧
    (∃ i r', (update_user ⟨[⟨"A", "05000000000", "p", "t"⟩], none⟩ "05000000000" "3" "Xy12345z").1.users
          = ([⟨"A", "05000000000", "p", "t"⟩] : List UserRecord).set i r' ∧
        ("3" = "1" → r'.name = pyStrip "Xy12345z" ∧ r'.name ≠ "" ∧ noSurroundingWs r'.name) ∧
        ("3" = "2" → r'.number = pyStrip "Xy12345z" ∧ noSurroundingWs r'.number ∧
          _validate_phone_number (pyStrip "Xy12345z") = true) ∧
        ("3" = "3" → r'.password = _hash_password "Xy12345z" ∧ sha256HexShape r'.password)) :=
  ⟨by decide,
    (claim_C10_normalized ⟨[⟨"A", "05000000000", "p", "t"⟩], none⟩ " Ali " "05123456789"
      "Abcdefg1" "T" "05000000000" "3" "Xy12345z").1 (by decide),
    by decide,
    (claim_C10_normalized ⟨[⟨"A", "05000000000", "p", "t"⟩], none⟩ " Ali " "05123456789"
      "Abcdefg1" "T" "05000000000" "3" "Xy12345z").2 (by decide)⟩

/-! ## C8: the `json.dump` / `json.load` round trip

Reduction lemmas for the parser (derived from the definitions' equations),
then the round trip itself. -/

theorem skipWs_space (l : List Char) : skipWs (' ' :: l) = skipWs l := by
  simp [skipWs, List.dropWhile_cons, jsonWs]

theorem skipWs_newline (l : List Char) : skipWs ('\n' :: l) = skipWs l := by
  simp [skipWs, List.dropWhile_cons, jsonWs]

theorem skipWs_quote (l : List Char) : skipWs ('"' :: l) = '"' :: l := by
  simp [skipWs, List.dropWhile_cons, jsonWs]

theorem skipWs_colon (l : List Char) : skipWs (':' :: l) = ':' :: l := by
  simp [skipWs, List.dropWhile_cons, jsonWs]

theorem skipWs_comma (l : List Char) : skipWs (',' :: l) = ',' :: l := by
  simp [skipWs, List.dropWhile_cons, jsonWs]

theorem skipWs_rbrack (l : List Char) : skipWs (']' :: l) = ']' :: l := by
  simp [skipWs, List.dropWhile_cons, jsonWs]

theorem skipWs_lbrace (l : List Char) : skipWs ('\x7b' :: l) = '\x7b' :: l := by
  simp [skipWs, List.dropWhile_cons, jsonWs]

theorem skipWs_rbrace (l : List Char) : skipWs ('\x7d' :: l) = '\x7d' :: l := by
  simp [skipWs, List.dropWhile_cons, jsonWs]

/-- `skipWs` is the identity when the head is not whitespace. -/
theorem skipWs_eq_self (l : List Char) (h : ∀ c, l.head? = some c → jsonWs c = false) :
    skipWs l = l := by
  cases l with
  | nil => rfl
  | cons c t =>
    have hc := h c rfl
    simp [skipWs, List.dropWhile_cons, hc]

/-! Reduction lemmas for `parseStringBody`. -/

theorem psb_quote (rest : List Char) : parseStringBody ('"' :: rest) = some ([], rest) := by
  rw [parseStringBody.eq_def]
  simp

theorem psb_esc (e : Char) (rest2 : List Char) (he : ¬ e = 'u') :
    parseStringBody ('\\' :: e :: rest2)
      = (escChar? e).bind fun c2 =>
          (parseStringBody rest2).map fun p => (c2 :: p.1, p.2) := by
  rw [parseStringBody.eq_def]
  simp [he]

theorem psb_u (h1 h2 h3 h4 : Char) (rest3 : List Char) :
    parseStringBody ('\\' :: 'u' :: h1 :: h2 :: h3 :: h4 :: rest3)
      = ((hexVal? h1).bind fun v1 =>
          (hexVal? h2).bind fun v2 =>
            (hexVal? h3).bind fun v3 =>
              (hexVal? h4).bind fun v4 =>
                (parseStringBody rest3).map fun p =>
                  (Char.ofNat (((v1 * 16 + v2) * 16 + v3) * 16 + v4) :: p.1, p.2)) := by
  rw [parseStringBody.eq_def]
  simp

theorem psb_lit (c : Char) (rest : List Char) (hq : ¬ c = '"') (hb : ¬ c = '\\')
    (hctl : ¬ c.toNat < 32) :
    parseStringBody (c :: rest) = (parseStringBody rest).map fun p => (c :: p.1, p.2) := by
  rw [parseStringBody.eq_def]
  simp [hq, hb, hctl]

/-- A run of plain characters (no quote, no backslash, no control character)
parses as itself up to the closing quote. -/
theorem psb_plain (k : List Char)
    (hk : ∀ c ∈ k, ¬ c = '"' ∧ ¬ c = '\\' ∧ ¬ c.toNat < 32) :
    ∀ W, parseStringBody (k ++ '"' :: W) = some (k, W) := by
  induction k with
  | nil => intro W; simpa using psb_quote W
  | cons c t ih =>
    intro W
    obtain ⟨hq, hb, hctl⟩ := hk c (by simp)
    rw [List.cons_append, psb_lit c _ hq hb hctl,
      ih (fun c2 hc2 => hk c2 (by simp [hc2])) W]
    rfl

theorem hexVal?_hexDigit : ∀ n, n < 16 → hexVal? (hexDigit n) = some n := by decide

/-- Unescaping inverts escaping: the parser recovers exactly the characters
the serializer escaped. -/
theorem psb_escape_roundtrip (s : List Char) :
    ∀ rest, parseStringBody (s.flatMap jsonEscapeChar ++ '"' :: rest) = some (s, rest) := by
  induction s with
  | nil => intro rest; simpa using psb_quote rest
  | cons c t ih =>
    intro rest
    rw [List.flatMap_cons, List.append_assoc]
    by_cases hb : c = '\\'
    · subst hb
      have he : jsonEscapeChar '\\' = ['\\', '\\'] := by simp [jsonEscapeChar]
      rw [he, List.cons_append, List.cons_append, List.nil_append,
        psb_esc _ _ (by decide), ih rest]
      rfl
    by_cases hq : c = '"'
    · subst hq
      have he : jsonEscapeChar '"' = ['\\', '"'] := by simp [jsonEscapeChar]
      rw [he, List.cons_append, List.cons_append, List.nil_append,
        psb_esc _ _ (by decide), ih rest]
      rfl
    by_cases h08 : c = '\x08'
    · subst h08
      have he : jsonEscapeChar '\x08' = ['\\', 'b'] := by simp [jsonEscapeChar]
      rw [he, List.cons_append, List.cons_append, List.nil_append,
        psb_esc _ _ (by decide), ih rest]
      rfl
    by_cases h09 : c = '\x09'
    · subst h09
      have he : jsonEscapeChar '\x09' = ['\\', 't'] := by simp [jsonEscapeChar]
      rw [he, List.cons_append, List.cons_append, List.nil_append,
        psb_esc _ _ (by decide), ih rest]
      rfl
    by_cases h0a : c = '\x0a'
    · subst h0a
      have he : jsonEscapeChar '\x0a' = ['\\', 'n'] := by simp [jsonEscapeChar]
      rw [he, List.cons_append, List.cons_append, List.nil_append,
        psb_esc _ _ (by decide), ih rest]
      rfl
    by_cases h0c : c = '\x0c'
    · subst h0c
      have he : jsonEscapeChar '\x0c' = ['\\', 'f'] := by simp [jsonEscapeChar]
      rw [he, List.cons_append, List.cons_append, List.nil_append,
        psb_esc _ _ (by decide), ih rest]
      rfl
    by_cases h0d : c = '\x0d'
    · subst h0d
      have he : jsonEscapeChar '\x0d' = ['\\', 'r'] := by simp [jsonEscapeChar]
      rw [he, List.cons_append, List.cons_append, List.nil_append,
        psb_esc _ _ (by decide), ih rest]
      rfl
    by_cases hctl : c.toNat < 32
    · have he : jsonEscapeChar c
          = ['\\', 'u', '0', '0', hexDigit (c.toNat / 16 % 16), hexDigit (c.toNat % 16)] := by
        simp [jsonEscapeChar, hb, hq, h08, h09, h0a, h0c, h0d, hctl]
      rw [he]
      simp only [List.cons_append, List.nil_append]
      rw [psb_u, ih rest]
      have e0 : hexVal? '0' = some 0 := by decide
      have e1 : hexVal? (hexDigit (c.toNat / 16 % 16)) = some (c.toNat / 16 % 16) :=
        hexVal?_hexDigit _ (Nat.mod_lt _ (by norm_num))
      have e2 : hexVal? (hexDigit (c.toNat % 16)) = some (c.toNat % 16) :=
        hexVal?_hexDigit _ (Nat.mod_lt _ (by norm_num))
      rw [e0, e1, e2]
      have hv : ((0 * 16 + 0) * 16 + c.toNat / 16 % 16) * 16 + c.toNat % 16 = c.toNat := by
        omega
      simp only [Option.some_bind, Option.map_some']
      rw [hv, Char.ofNat_toNat]
    · have he : jsonEscapeChar c = [c] := by
        simp [jsonEscapeChar, hb, hq, h08, h09, h0a, h0c, h0d, hctl]
      rw [he, List.cons_append, List.nil_append, psb_lit c _ hq hb hctl, ih rest]
      rfl

/-! Reduction lemmas for the mutual value parser. -/

theorem pv_quote (fuel : Nat) (rest : List Char) :
    parseVal (fuel + 1) ('"' :: rest)
      = (parseStringBody rest).map fun p => (Json.str ⟨p.1⟩, p.2) := by
  rw [parseVal.eq_def]
  simp

theorem pv_lbracket_items (fuel : Nat) (rest tail : List Char)
    (h : skipWs rest = '\x7b' :: tail) :
    parseVal (fuel + 1) ('[' :: rest)
      = (parseItems fuel ('\x7b' :: tail)).map fun p => (Json.arr p.1, p.2) := by
  rw [parseVal.eq_def]
  simp [h]

theorem pv_lbrace_members (fuel : Nat) (rest tail : List Char)
    (h : skipWs rest = '"' :: tail) :
    parseVal (fuel + 1) ('\x7b' :: rest)
      = (parseMembers fuel ('"' :: tail)).map fun p => (Json.obj p.1, p.2) := by
  rw [parseVal.eq_def]
  simp [h]

theorem pi_item_cont (fuel : Nat) (l : List Char) (v : Json) (Z r2 : List Char)
    (hv : parseVal fuel l = some (v, Z)) (hz : skipWs Z = ',' :: r2) :
    parseItems (fuel + 1) l
      = (parseItems fuel (skipWs r2)).bind fun pr => some (v :: pr.1, pr.2) := by
  rw [parseItems.eq_def]
  simp [hv, hz]

theorem pi_item_last (fuel : Nat) (l : List Char) (v : Json) (Z r2 : List Char)
    (hv : parseVal fuel l = some (v, Z)) (hz : skipWs Z = ']' :: r2) :
    parseItems (fuel + 1) l = some ([v], r2) := by
  rw [parseItems.eq_def]
  simp [hv, hz]

theorem pm_quote (fuel : Nat) (rest : List Char) :
    parseMembers (fuel + 1) ('"' :: rest)
      = ((parseStringBody rest).bind fun pk =>
          match skipWs pk.2 with
          | ':' :: r2 =>
            (parseVal fuel (skipWs r2)).bind fun pv =>
              match skipWs pv.2 with
              | ',' :: r4 =>
                (parseMembers fuel (skipWs r4)).bind fun pm =>
                  some ((⟨pk.1⟩, pv.1) :: pm.1, pm.2)
              | '\x7d' :: r4 => some ([(⟨pk.1⟩, pv.1)], r4)
              | _ => none
          | _ => none) := by
  rw [parseMembers.eq_def]
  simp

/-- One `"key": "value"` member followed by a comma: parses the member and
continues after the comma. -/
theorem pm_member_cont (fuel : Nat) (k : List Char) (v : String) (Z r4 : List Char)
    (hk : ∀ c ∈ k, ¬ c = '"' ∧ ¬ c = '\\' ∧ ¬ c.toNat < 32)
    (hz : skipWs Z = ',' :: r4) :
    parseMembers (fuel + 2)
        ('"' :: (k ++ '"' :: ':' :: ' ' :: ('"' :: (v.data.flatMap jsonEscapeChar ++ '"' :: Z))))
      = (parseMembers (fuel + 1) (skipWs r4)).bind fun pm =>
          some ((⟨k⟩, Json.str v) :: pm.1, pm.2) := by
  rw [pm_quote, psb_plain k hk]
  simp only [Option.some_bind, skipWs_colon]
  simp only [skipWs_space, skipWs_quote, pv_quote, psb_escape_roundtrip,
    Option.map_some', Option.some_bind, hz]

/-- The last `"key": "value"` member, followed by the closing brace. -/
theorem pm_member_last (fuel : Nat) (k : List Char) (v : String) (Z r4 : List Char)
    (hk : ∀ c ∈ k, ¬ c = '"' ∧ ¬ c = '\\' ∧ ¬ c.toNat < 32)
    (hz : skipWs Z = '\x7d' :: r4) :
    parseMembers (fuel + 2)
        ('"' :: (k ++ '"' :: ':' :: ' ' :: ('"' :: (v.data.flatMap jsonEscapeChar ++ '"' :: Z))))
      = some ([(⟨k⟩, Json.str v)], r4) := by
  rw [pm_quote, psb_plain k hk]
  simp only [Option.some_bind, skipWs_colon]
  simp only [skipWs_space, skipWs_quote, pv_quote, psb_escape_roundtrip,
    Option.map_some', Option.some_bind, hz]

/-- `parseVal` on an opening brace followed by the `indent=4` newline and
level-2 indent hands over to `parseMembers` at the first key. -/
theorem pv_lbrace_ws (fuel : Nat) (tail : List Char) :
    parseVal (fuel + 1)
        ('\x7b' :: '\n' :: ' ' :: ' ' :: ' ' :: ' ' :: ' ' :: ' ' :: ' ' :: ' ' :: '"' :: tail)
      = (parseMembers fuel ('"' :: tail)).map fun p => (Json.obj p.1, p.2) := by
  rw [parseVal.eq_def]
  simp [skipWs_newline, skipWs_space, skipWs_quote]

/-- The `"name"` member of a dumped record, followed by a comma separator. -/
theorem pm_name_step (fuel : Nat) (v : String) (W : List Char) :
    parseMembers (fuel + 2)
        ('"' :: 'n' :: 'a' :: 'm' :: 'e' :: '"' :: ':' :: ' ' ::
          '"' :: (v.data.flatMap jsonEscapeChar ++ '"' ::
            (',' :: '\n' :: ' ' :: ' ' :: ' ' :: ' ' :: ' ' :: ' ' :: ' ' :: ' ' :: '"' :: W)))
      = (parseMembers (fuel + 1) ('"' :: W)).bind fun pm =>
          some (("name", Json.str v) :: pm.1, pm.2) := by
  have H := pm_member_cont fuel ['n', 'a', 'm', 'e'] v
    (',' :: '\n' :: ' ' :: ' ' :: ' ' :: ' ' :: ' ' :: ' ' :: ' ' :: ' ' :: '"' :: W)
    ('\n' :: ' ' :: ' ' :: ' ' :: ' ' :: ' ' :: ' ' :: ' ' :: ' ' :: '"' :: W)
    (by decide) (by rw [skipWs_comma])
  simp only [List.cons_append, List.nil_append] at H
  rw [H]
  simp only [skipWs_newline, skipWs_space, skipWs_quote]

/-- The `"number"` member of a dumped record, followed by a comma. -/
theorem pm_number_step (fuel : Nat) (v : String) (W : List Char) :
    parseMembers (fuel + 2)
        ('"' :: 'n' :: 'u' :: 'm' :: 'b' :: 'e' :: 'r' :: '"' :: ':' :: ' ' ::
          '"' :: (v.data.flatMap jsonEscapeChar ++ '"' ::
            (',' :: '\n' :: ' ' :: ' ' :: ' ' :: ' ' :: ' ' :: ' ' :: ' ' :: ' ' :: '"' :: W)))
      = (parseMembers (fuel + 1) ('"' :: W)).bind fun pm =>
          some (("number", Json.str v) :: pm.1, pm.2) := by
  have H := pm_member_cont fuel ['n', 'u', 'm', 'b', 'e', 'r'] v
    (',' :: '\n' :: ' ' :: ' ' :: ' ' :: ' ' :: ' ' :: ' ' :: ' ' :: ' ' :: '"' :: W)
    ('\n' :: ' ' :: ' ' :: ' ' :: ' ' :: ' ' :: ' ' :: ' ' :: ' ' :: '"' :: W)
    (by decide) (by rw [skipWs_comma])
  simp only [List.cons_append, List.nil_append] at H
  rw [H]
  simp only [skipWs_newline, skipWs_space, skipWs_quote]

/-- The `"password"` member of a dumped record, followed by a comma. -/
theorem pm_password_step (fuel : Nat) (v : String) (W : List Char) :
    parseMembers (fuel + 2)
        ('"' :: 'p' :: 'a' :: 's' :: 's' :: 'w' :: 'o' :: 'r' :: 'd' :: '"' :: ':' :: ' ' ::
          '"' :: (v.data.flatMap jsonEscapeChar ++ '"' ::
            (',' :: '\n' :: ' ' :: ' ' :: ' ' :: ' ' :: ' ' :: ' ' :: ' ' :: ' ' :: '"' :: W)))
      = (parseMembers (fuel + 1) ('"' :: W)).bind fun pm =>
          some (("password", Json.str v) :: pm.1, pm.2) := by
  have H := pm_member_cont fuel ['p', 'a', 's', 's', 'w', 'o', 'r', 'd'] v
    (',' :: '\n' :: ' ' :: ' ' :: ' ' :: ' ' :: ' ' :: ' ' :: ' ' :: ' ' :: '"' :: W)
    ('\n' :: ' ' :: ' ' :: ' ' :: ' ' :: ' ' :: ' ' :: ' ' :: ' ' :: '"' :: W)
    (by decide) (by rw [skipWs_comma])
  simp only [List.cons_append, List.nil_append] at H
  rw [H]
  simp only [skipWs_newline, skipWs_space, skipWs_quote]

/-- The final `"created_at"` member, followed by the closing brace at
level-1 indent. -/
theorem pm_created_last (fuel : Nat) (v : String) (W : List Char) :
    parseMembers (fuel + 2)
        ('"' :: 'c' :: 'r' :: 'e' :: 'a' :: 't' :: 'e' :: 'd' :: '_' :: 'a' :: 't' :: '"' :: ':' :: ' ' ::
          '"' :: (v.data.flatMap jsonEscapeChar ++ '"' ::
            ('\n' :: ' ' :: ' ' :: ' ' :: ' ' :: '\x7d' :: W)))
      = some ([("created_at", Json.str v)], W) := by
  have H := pm_member_last fuel ['c', 'r', 'e', 'a', 't', 'e', 'd', '_', 'a', 't'] v
    ('\n' :: ' ' :: ' ' :: ' ' :: ' ' :: '\x7d' :: W)
    W (by decide)
    (by simp only [skipWs_newline, skipWs_space, skipWs_rbrace])
  simp only [List.cons_append, List.nil_append] at H
  rw [H]

/-- A dumped record parses back to exactly its four fields in order. -/
theorem pv_record (fuel : Nat) (r : UserRecord) (rest : List Char) :
    parseVal (fuel + 6) (dumpRecord r ++ rest) = some (recordJson r, rest) := by
  simp only [dumpRecord, chunkName, chunkNumber, chunkPassword, chunkCreated, chunkObjClose,
    jsonQuote, List.cons_append, List.nil_append, List.append_assoc]
  rw [show fuel + 6 = (fuel + 5) + 1 from rfl, pv_lbrace_ws]
  rw [show fuel + 5 = (fuel + 3) + 2 from rfl, pm_name_step]
  rw [show (fuel + 3) + 1 = (fuel + 2) + 2 from rfl, pm_number_step]
  rw [show (fuel + 2) + 1 = (fuel + 1) + 2 from rfl, pm_password_step]
  rw [show (fuel + 1) + 1 = fuel + 2 from rfl, pm_created_last]
  rfl

theorem skipWs_dumpRecord (r : UserRecord) (X : List Char) :
    skipWs (dumpRecord r ++ X) = dumpRecord r ++ X := by
  apply skipWs_eq_self
  intro c hc
  have hh : (dumpRecord r ++ X).head? = some '\x7b' := by
    simp only [dumpRecord, chunkName, List.cons_append, List.head?_cons]
  rw [hh] at hc
  obtain rfl := Option.some.inj hc
  decide

/-- The items of a dumped non-empty collection parse back one record per
item, consuming the closing `"\n]"` as well. -/
theorem pi_dump (t : List UserRecord) :
    ∀ (fuel : Nat) (r : UserRecord) (rest : List Char),
      parseItems (fuel + 7 * t.length + 7)
          (dumpRecord r ++
            ((t.flatMap fun r2 => chunkArrSep ++ dumpRecord r2) ++ (chunkArrClose ++ rest)))
        = some (recordJson r :: t.map recordJson, rest) := by
  induction t with
  | nil =>
    intro fuel r rest
    simp only [List.length_nil, Nat.mul_zero, Nat.add_zero, List.flatMap_nil,
      List.nil_append, List.map_nil]
    have hv : parseVal (fuel + 6) (dumpRecord r ++ (chunkArrClose ++ rest))
        = some (recordJson r, chunkArrClose ++ rest) := pv_record _ r _
    have hz : skipWs (chunkArrClose ++ rest) = ']' :: rest := by
      simp only [chunkArrClose, List.cons_append, List.nil_append, skipWs_newline,
        skipWs_rbrack]
    rw [show fuel + 7 = (fuel + 6) + 1 from rfl, pi_item_last (fuel + 6) _ _ _ _ hv hz]
  | cons r2 t2 ih =>
    intro fuel r rest
    have harith : fuel + 7 * (r2 :: t2).length + 7 = ((fuel + 7 * t2.length + 7) + 6) + 1 := by
      simp only [List.length_cons]
      ring
    rw [harith]
    simp only [List.flatMap_cons, List.append_assoc]
    have hv := pv_record (fuel + 7 * t2.length + 7) r
      (chunkArrSep ++ (dumpRecord r2 ++
        ((t2.flatMap fun r3 => chunkArrSep ++ dumpRecord r3) ++ (chunkArrClose ++ rest))))
    have hz : skipWs (chunkArrSep ++ (dumpRecord r2 ++
          ((t2.flatMap fun r3 => chunkArrSep ++ dumpRecord r3) ++ (chunkArrClose ++ rest))))
        = ',' :: ('\n' :: ' ' :: ' ' :: ' ' :: ' ' :: (dumpRecord r2 ++
            ((t2.flatMap fun r3 => chunkArrSep ++ dumpRecord r3) ++ (chunkArrClose ++ rest)))) := by
      simp only [chunkArrSep, List.cons_append, List.nil_append, skipWs_comma]
    rw [pi_item_cont _ _ _ _ _ hv hz]
    have hsk : skipWs ('\n' :: ' ' :: ' ' :: ' ' :: ' ' :: (dumpRecord r2 ++
          ((t2.flatMap fun r3 => chunkArrSep ++ dumpRecord r3) ++ (chunkArrClose ++ rest))))
        = dumpRecord r2 ++
            ((t2.flatMap fun r3 => chunkArrSep ++ dumpRecord r3) ++ (chunkArrClose ++ rest)) := by
      simp only [skipWs_newline, skipWs_space]
      exact skipWs_dumpRecord r2 _
    rw [hsk]
    rw [show (fuel + 7 * t2.length + 7) + 6 = (fuel + 6) + 7 * t2.length + 7 from by omega]
    rw [ih (fuel + 6) r2 rest]
    simp

theorem dumpRecord_length (r : UserRecord) : 18 ≤ (dumpRecord r).length := by
  simp only [dumpRecord, chunkName, chunkNumber, chunkPassword, chunkCreated, chunkObjClose,
    jsonQuote, List.length_append, List.length_cons]
  omega

theorem flatMap_sep_length (t : List UserRecord) :
    7 * t.length ≤ ((t.flatMap fun r2 => chunkArrSep ++ dumpRecord r2).length) := by
  induction t with
  | nil => simp
  | cons r2 t2 ih =>
    have := dumpRecord_length r2
    simp only [List.flatMap_cons, List.length_append, List.length_cons, chunkArrSep] at *
    omega

/-- The core of C8: dumping any collection and parsing the text back yields
exactly the corresponding JSON value. -/
theorem dump_load_roundtrip (us : List UserRecord) :
    pyJsonLoads (dumpUsers us) = some (jsonOfUsers us) := by
  cases us with
  | nil => rfl
  | cons r t =>
    unfold pyJsonLoads
    have hdata : (dumpUsers (r :: t)).data
        = chunkArrOpen ++ (dumpRecord r ++
            ((t.flatMap fun r2 => chunkArrSep ++ dumpRecord r2) ++ chunkArrClose)) := rfl
    rw [hdata]
    have hD2 : chunkArrOpen ++ (dumpRecord r ++
          ((t.flatMap fun r2 => chunkArrSep ++ dumpRecord r2) ++ chunkArrClose))
        = '[' :: ('\n' :: ' ' :: ' ' :: ' ' :: ' ' :: (dumpRecord r ++
            ((t.flatMap fun r2 => chunkArrSep ++ dumpRecord r2) ++ chunkArrClose))) := by
      simp only [chunkArrOpen, List.cons_append, List.nil_append]
    rw [hD2]
    have hsk1 : skipWs ('[' :: ('\n' :: ' ' :: ' ' :: ' ' :: ' ' :: (dumpRecord r ++
          ((t.flatMap fun r2 => chunkArrSep ++ dumpRecord r2) ++ chunkArrClose))))
        = '[' :: ('\n' :: ' ' :: ' ' :: ' ' :: ' ' :: (dumpRecord r ++
            ((t.flatMap fun r2 => chunkArrSep ++ dumpRecord r2) ++ chunkArrClose))) := by
      apply skipWs_eq_self
      intro c hc
      obtain rfl := Option.some.inj hc
      decide
    rw [hsk1]
    have hhead : (dumpRecord r ++
          ((t.flatMap fun r2 => chunkArrSep ++ dumpRecord r2) ++ chunkArrClose)).head?
        = some '\x7b' := by
      simp only [dumpRecord, chunkName, List.cons_append, List.head?_cons]
    obtain ⟨tail, htail⟩ : ∃ tail,
        dumpRecord r ++ ((t.flatMap fun r2 => chunkArrSep ++ dumpRecord r2) ++ chunkArrClose)
          = '\x7b' :: tail :=
      ⟨_, (List.cons_head?_tail (Option.mem_def.mpr hhead)).symm⟩
    have hsk2 : skipWs ('\n' :: ' ' :: ' ' :: ' ' :: ' ' :: (dumpRecord r ++
          ((t.flatMap fun r2 => chunkArrSep ++ dumpRecord r2) ++ chunkArrClose)))
        = '\x7b' :: tail := by
      simp only [skipWs_newline, skipWs_space]
      rw [skipWs_dumpRecord, htail]
    rw [pv_lbracket_items _ _ _ hsk2, ← htail]
    have hlen : 7 * t.length + 7 ≤ ('[' :: ('\n' :: ' ' :: ' ' :: ' ' :: ' ' :: (dumpRecord r ++
          ((t.flatMap fun r2 => chunkArrSep ++ dumpRecord r2) ++ chunkArrClose)))).length := by
      have h1 := dumpRecord_length r
      have h2 := flatMap_sep_length t
      simp only [List.length_cons, List.length_append, chunkArrClose]
      simp only [List.length_cons, List.length_nil]
      omega
    obtain ⟨extra, hextra0⟩ := Nat.le.dest hlen
    rw [show 7 * t.length + 7 + extra = extra + 7 * t.length + 7 from by ring] at hextra0
    rw [← hextra0]
    have HI := pi_dump t extra r []
    rw [List.append_nil] at HI
    rw [HI]
    simp [jsonOfUsers, skipWs]

/-- C8: persisting a collection and reloading the stored text yields a
field-for-field identical collection: the reloaded JSON value is exactly the
value of the records (same fields, same order), and decoding it gives back
the original records. -/
theorem claim_C8_roundtrip :
    (∀ st : UsersSave, _load_users (_save_users st).fileContent = jsonOfUsers st.users) ∧
    (∀ us : List UserRecord, pyJsonLoads (dumpUsers us) = some (jsonOfUsers us)) ∧
    (∀ us : List UserRecord, usersOfJson (jsonOfUsers us) = some us) := by
  refine ⟨?_, dump_load_roundtrip, ?_⟩
  · intro st
    simp only [_save_users, _load_users, dump_load_roundtrip]
  · intro us
    induction us with
    | nil => rfl
    | cons r t ih =>
      have ih2 : (t.map recordJson).mapM userOfJson = some t := ih
      have hr : userOfJson (recordJson r) = some r := rfl
      show ((r :: t).map recordJson).mapM userOfJson = some (r :: t)
      rw [List.map_cons, List.mapM_cons, hr, ih2]
      rfl

/-- C9: initialization from parseable storage installs the parsed value
verbatim as the collection — no record validation, no shape requirement:
records with malformed phone numbers, non-digest passwords or missing keys
are accepted, and so is JSON that is not an array of objects at all. -/
theorem claim_C9_load_verbatim :
    (∀ content j, pyJsonLoads content = some j → _load_users (some content) = j) ∧
    _load_users (some "[\x7b\"name\": \"a\"\x7d]")
      = Json.arr [Json.obj [("name", Json.str "a")]] ∧
    _load_users (some "[\x7b\"name\": \"a\", \"number\": \"123\", \"password\": \"pw\", \"created_at\": \"t\"\x7d]")
      = Json.arr [Json.obj [("name", Json.str "a"), ("number", Json.str "123"),
          ("password", Json.str "pw"), ("created_at", Json.str "t")]] ∧
    _load_users (some "\x7b\"number\": 5\x7d") = Json.obj [("number", Json.num 5)] ∧
    _load_users (some "\"hello\"") = Json.str "hello" := by
  refine ⟨?_, by rfl, by rfl, by rfl, by rfl⟩
  intro content j h
  unfold _load_users
  simp only []
  rw [h]

theorem claim_C9_witness :
    pyJsonLoads "[1, 2]" = some (Json.arr [Json.num 1, Json.num 2]) ∧
      _load_users (some "[1, 2]") = Json.arr [Json.num 1, Json.num 2] :=
  ⟨by rfl, claim_C9_load_verbatim.1 "[1, 2]" (Json.arr [Json.num 1, Json.num 2]) (by rfl)⟩

end UserOps
